import Mathlib

/- Shallow embedding of the AI-suggestion coordination subsystem of the
CodeEditor-ProMax repository: chat transcript model, fenced code-block
extraction, suggestion coordinator, AI completion client, panel layout
controller and code sanitizer, translated from
src/components/AIPrompter.tsx, the ProblemView page and
src/utils/codeSanitizer.ts.  Text is modelled as a list of characters. -/

abbrev Str := List Char

/-- The backtick character, written via its code point. -/
def backtick : Char := Char.ofNat 96

def isBacktick (c : Char) : Bool := c == backtick

/-- JavaScript regex whitespace class backslash-s: WhiteSpace plus
LineTerminator code points; also the set removed by String.trim. -/
def isJsSpace (c : Char) : Bool :=
  c == ' ' || c == '\t' || c == '\n' || c == '\r' ||
  c.toNat == 11 || c.toNat == 12 || c.toNat == 160 || c.toNat == 0x1680 ||
  (decide (0x2000 ≤ c.toNat) && decide (c.toNat ≤ 0x200a)) ||
  c.toNat == 0x2028 || c.toNat == 0x2029 ||
  c.toNat == 0x202f || c.toNat == 0x205f || c.toNat == 0x3000 || c.toNat == 0xfeff

/-- The regex character class [a-zA-Z]. -/
def isAsciiLetter (c : Char) : Bool :=
  (decide ('a' ≤ c) && decide (c ≤ 'z')) || (decide ('A' ≤ c) && decide (c ≤ 'Z'))

/-- The regex character class [a-zA-Z0-9_]. -/
def isWordChar (c : Char) : Bool :=
  isAsciiLetter c || (decide ('0' ≤ c) && decide (c ≤ '9')) || c == '_'

/-- JavaScript String.trim: strip whitespace and line terminators from
both ends. -/
def jsTrim (s : Str) : Str :=
  ((s.dropWhile isJsSpace).reverse.dropWhile isJsSpace).reverse

/-- ASCII lower-casing of a single character, the simple case folding a
case-insensitive JavaScript regex applies to the ASCII letters occurring
in the sanitizer patterns. -/
def toLowerA (c : Char) : Char :=
  if c.isUpper then Char.ofNat (c.toNat + 32) else c

/-- Case-insensitive character comparison used by the /i regex flag. -/
def ciEq (p c : Char) : Bool := toLowerA p == toLowerA c

/-- Match a pattern literal case-insensitively against the start of a
string, returning the remainder on success. -/
def ciStrip : Str → Str → Option Str
  | [], s => some s
  | _ :: _, [] => none
  | p :: ps, c :: cs => if ciEq p c then ciStrip ps cs else none

/- ------------------------------------------------------------------ -/
/- Chat transcript (AIPrompter.tsx)                                    -/
/- ------------------------------------------------------------------ -/

inductive Role
  | user
  | assistant
deriving DecidableEq

structure ChatMessage where
  role : Role
  content : Str
deriving DecidableEq

/-- The scan "[...chat].reverse().find(msg => msg.role === 'assistant')"
for the most recent assistant message. -/
def lastAssistantMessage (chat : List ChatMessage) : Option ChatMessage :=
  chat.reverse.find? (fun msg => decide (msg.role = Role.assistant))

/- ------------------------------------------------------------------ -/
/- Fenced code block scan: the regex triple-backtick [a-zA-Z]* newline  -/
/- lazy-body triple-backtick with the global flag (AIPrompter.tsx       -/
/- getLastCodeBlock and the ProblemView suggestion effect).             -/
/- ------------------------------------------------------------------ -/

/-- Find the first closing triple backtick; returns the body before it
and the remainder after it.  This is the lazy body match of the fenced
code block regex. -/
def findClose : Str → Option (Str × Str)
  | [] => none
  | c :: rest =>
    match rest with
    | c2 :: c3 :: rest2 =>
      if isBacktick c && isBacktick c2 && isBacktick c3 then some ([], rest2)
      else (findClose rest).map (fun p => (c :: p.1, p.2))
    | _ => (findClose rest).map (fun p => (c :: p.1, p.2))

/-- After the backticks and the language tag: the regex demands a
newline and then the lazily matched body up to the closing backticks. -/
def matchAfterTicks : Str → Option (Str × Str)
  | d :: body => if d = '\n' then findClose body else none
  | [] => none

/-- Attempt the fenced-block regex at the start of the string: three
backticks, an optional run of ASCII letters (the language tag), a
newline, then a lazily matched body up to the next three backticks.
On success returns the captured body and the remainder after the match. -/
def matchFenceAt (s : Str) : Option (Str × Str) :=
  match s with
  | c1 :: c2 :: c3 :: rest =>
    if isBacktick c1 && isBacktick c2 && isBacktick c3 then
      matchAfterTicks (rest.dropWhile isAsciiLetter)
    else none
  | _ => none

/-- Fuel-driven global scan: at each position try the fenced-block
regex; on a match record the captured body and continue after the
match, otherwise advance one character.  One unit of fuel is spent per
step and every step consumes at least one character, so fuel equal to
the length of the string suffices. -/
def scanBlocksF : Nat → Str → List Str
  | 0, _ => []
  | _ + 1, [] => []
  | fuel + 1, c :: rest =>
    match matchFenceAt (c :: rest) with
    | some (body, after) => body :: scanBlocksF fuel after
    | none => scanBlocksF fuel rest

/-- All capture groups of the global fenced-block regex scan, in match
order ("matchAll"). -/
def scanBlocks (s : Str) : List Str := scanBlocksF s.length s

/-- getLastCodeBlock (AIPrompter.tsx): take the most recent assistant
message, run the fenced-block scan over its content, and return the
trimmed body of the last match, or empty when there is no assistant
message or no match. -/
def getLastCodeBlock (chat : List ChatMessage) : Str :=
  match lastAssistantMessage chat with
  | none => []
  | some lastAI =>
    match (scanBlocks lastAI.content).getLast? with
    | none => []
    | some m => jsTrim m

/- ------------------------------------------------------------------ -/
/- AI completion client (AIPrompter.tsx fetchOpenAICompletion)          -/
/- ------------------------------------------------------------------ -/

/-- The observable part of the remote chat-completion response: the
HTTP status, the raw body text, and the extracted
choices[0].message.content field when present. -/
structure HttpResponse where
  status : Nat
  bodyText : Str
  content : Option Str
deriving DecidableEq

/-- response.ok: status in the 2xx range. -/
def responseOk (r : HttpResponse) : Bool :=
  decide (200 ≤ r.status) && decide (r.status ≤ 299)

/-- fetchOpenAICompletion: on a non-ok response throw an Error carrying
the response body text (modelled as the error branch of Except); on
success return the content, falling back to a fixed string when the
content is missing or empty (the JavaScript or-else on a falsy value). -/
def fetchOpenAICompletion (resp : HttpResponse) : Except Str Str :=
  if responseOk resp = false then Except.error resp.bodyText
  else
    Except.ok (match resp.content with
      | some c => if c.isEmpty then "No response from AI.".toList else c
      | none => "No response from AI.".toList)

/-- handleSend (AIPrompter.tsx): ignore a prompt that is blank after
trimming; otherwise append the user message, call the completion
client, and append either the assistant reply or an assistant message
prefixed "Error: " built from the caught failure, falling back to a
fixed message when the failure text is empty.  The catch makes the
operation total: it always produces a transcript. -/
def handleSend (prompt : Str) (chat : List ChatMessage) (resp : HttpResponse) :
    List ChatMessage :=
  if (jsTrim prompt).isEmpty then chat
  else
    let chatWithUser := chat ++ [⟨Role.user, prompt⟩]
    match fetchOpenAICompletion resp with
    | Except.ok result => chatWithUser ++ [⟨Role.assistant, result⟩]
    | Except.error e =>
      chatWithUser ++ [⟨Role.assistant,
        "Error: ".toList ++
          (if e.isEmpty then "Failed to fetch AI response.".toList else e)⟩]

/- ------------------------------------------------------------------ -/
/- Suggestion coordinator (ProblemView: pendingSuggestion,              -/
/- lastSuggestedCode and the transcript-watching effect)                -/
/- ------------------------------------------------------------------ -/

/-- A monaco selection range snapshot. -/
structure SelectionRange where
  startLineNumber : Nat
  startColumn : Nat
  endLineNumber : Nat
  endColumn : Nat
deriving DecidableEq

/-- Selection.isEmpty: start equals end. -/
def SelectionRange.isEmpty (r : SelectionRange) : Bool :=
  decide (r.startLineNumber = r.endLineNumber) && decide (r.startColumn = r.endColumn)

/-- The editor surface as consumed by the coordinator: getSelection may
return null. -/
structure EditorModel where
  selection : Option SelectionRange
deriving DecidableEq

def EditorModel.getSelection (e : EditorModel) : Option SelectionRange := e.selection

inductive SuggestionType
  | insert
  | replace
deriving DecidableEq

structure Suggestion where
  type : SuggestionType
  code : Str
  range : Option SelectionRange
deriving DecidableEq

/-- The coordinator state: the pending suggestion slot and the code of
the most recently resolved suggestion. -/
structure CoordState where
  pendingSuggestion : Option Suggestion
  lastSuggestedCode : Option Str
deriving DecidableEq

/-- The suggestion-triggering effect of ProblemView, evaluated on every
transcript or selection change: bail out when the editor is not
mounted, the transcript is empty, no assistant message exists, or the
scan finds no code block; suppress when the trimmed last block equals
the pending suggestion code or the last suggested code; otherwise
create a pending replace suggestion capturing a non-empty selection, or
a pending insert suggestion with no range. -/
def coordinatorStep (editorInstance : Option EditorModel)
    (chat : List ChatMessage) (st : CoordState) : CoordState :=
  match editorInstance with
  | none => st
  | some ed =>
    if chat.isEmpty then st
    else
      match lastAssistantMessage chat with
      | none => st
      | some lastAI =>
        match (scanBlocks lastAI.content).getLast? with
        | none => st
        | some m =>
          let code := jsTrim m
          if (match st.pendingSuggestion with
              | some p => decide (p.code = code)
              | none => false) || decide (st.lastSuggestedCode = some code) then st
          else
            match ed.getSelection with
            | some selection =>
              if !selection.isEmpty then
                { st with pendingSuggestion := some ⟨SuggestionType.replace, code, some selection⟩ }
              else
                { st with pendingSuggestion := some ⟨SuggestionType.insert, code, none⟩ }
            | none =>
              { st with pendingSuggestion := some ⟨SuggestionType.insert, code, none⟩ }

/- ------------------------------------------------------------------ -/
/- Panel layout controller (AIPrompter.tsx width state and the          -/
/- mousedown / mousemove / mouseup handlers)                            -/
/- ------------------------------------------------------------------ -/

def minWidth : Int := 320

def maxWidth : Int := 700

def defaultWidth : Int := 400

structure PanelState where
  width : Int
  isResizing : Bool
deriving DecidableEq

def initialPanelState : PanelState := ⟨defaultWidth, false⟩

/-- handleMouseMove: while resizing, set the width to the clamp of the
distance between the viewport right edge and the pointer. -/
def handleMouseMove (st : PanelState) (innerWidth clientX : Int) : PanelState :=
  if !st.isResizing then st
  else { st with width := min (max (innerWidth - clientX) minWidth) maxWidth }

inductive PanelEvent
  | mouseDown
  | mouseMove (innerWidth clientX : Int)
  | mouseUp

/-- One pointer event: mousedown on the handle starts a resize session,
mousemove recomputes the clamped width, mouseup ends the session. -/
def panelStep (st : PanelState) : PanelEvent → PanelState
  | PanelEvent.mouseDown => { st with isResizing := true }
  | PanelEvent.mouseMove w x => handleMouseMove st w x
  | PanelEvent.mouseUp => { st with isResizing := false }

/-- Run a sequence of pointer events from the initial panel state. -/
def panelRun (events : List PanelEvent) : PanelState :=
  events.foldl panelStep initialPanelState

/- ------------------------------------------------------------------ -/
/- Code sanitizer (src/utils/codeSanitizer.ts)                          -/
/- ------------------------------------------------------------------ -/

/-- The shape of every dangerous pattern in the source: either a plain
case-insensitive literal, or a literal followed by a whitespace run
(star or plus) and a second literal. -/
inductive Pat
  | lit (w : Str)
  | ws (a : Str) (plus : Bool) (b : Str)
deriving DecidableEq

/-- Test a pattern at the start of a string.  For the whitespace form
the run is maximal; since the follow-up literal never starts with a
whitespace character this agrees with the backtracking regex. -/
def patTestAt : Pat → Str → Bool
  | Pat.lit w, s => (ciStrip w s).isSome
  | Pat.ws a plus b, s =>
    match ciStrip a s with
    | none => false
    | some r =>
      (if plus then (match r.head? with
        | some c => isJsSpace c
        | none => false) else true)
      && (ciStrip b (r.dropWhile isJsSpace)).isSome

/-- RegExp.prototype.test: the pattern matches at some position. -/
def patTest (p : Pat) : Str → Bool
  | [] => patTestAt p []
  | c :: rest => patTestAt p (c :: rest) || patTest p rest

/-- DANGEROUS_PATTERNS from codeSanitizer.ts, in source order. -/
def DANGEROUS_PATTERNS : List Pat :=
  [ Pat.ws "eval".toList false "(".toList
  , Pat.ws "Function".toList false "(".toList
  , Pat.ws "setTimeout".toList false "(".toList
  , Pat.ws "setInterval".toList false "(".toList
  , Pat.ws "new".toList true "Function".toList
  , Pat.lit "document.".toList
  , Pat.lit "window.".toList
  , Pat.lit "localStorage.".toList
  , Pat.lit "sessionStorage.".toList
  , Pat.lit "indexedDB.".toList
  , Pat.ws "fetch".toList false "(".toList
  , Pat.lit "XMLHttpRequest".toList
  , Pat.lit "WebSocket".toList
  , Pat.lit "Worker".toList
  , Pat.ws "import".toList false "(".toList
  , Pat.ws "require".toList false "(".toList
  , Pat.lit "process.".toList
  , Pat.lit "__dirname".toList
  , Pat.lit "__filename".toList
  , Pat.lit "global.".toList
  , Pat.lit "module.".toList
  , Pat.lit "exports.".toList ]

/-- isCodeSafe: no dangerous pattern matches. -/
def isCodeSafe (code : Str) : Bool :=
  !(DANGEROUS_PATTERNS.any (fun p => patTest p code))

/-- Render a pattern character the way it appears in the regex literal
source (parenthesis and dot are escaped). -/
def regexEscapeChar (c : Char) : String :=
  if c = '(' || c = '.' then "\\" ++ c.toString else c.toString

def strEscape (w : Str) : String :=
  w.foldl (fun acc c => acc ++ regexEscapeChar c) ""

/-- RegExp.prototype.toString of a dangerous pattern, as interpolated
into the error message. -/
def patSource : Pat → String
  | Pat.lit w => "/" ++ strEscape w ++ "/i"
  | Pat.ws a plus b =>
    "/" ++ strEscape a ++ (if plus then "\\s+" else "\\s*") ++ strEscape b ++ "/i"

/-- The forEach over DANGEROUS_PATTERNS pushing one error per pattern
that matches the original code. -/
def dangerousPatternErrors (code : Str) : List String :=
  (DANGEROUS_PATTERNS.filter (fun p => patTest p code)).map
    (fun p => "Potentially dangerous pattern detected: " ++ patSource p)

/-- A successful match step of a global regex replace: the text the
callback keeps, the errors it pushes, and the remainder of the input
after the match. -/
structure ReplaceStep where
  out : Str
  errs : List String
  rest : Str

/-- Fuel-driven global regex replace: try the matcher at each position,
keeping unmatched characters; every matcher consumes at least one
character, so fuel equal to the input length suffices. -/
def replaceScanF (mat : Str → Option ReplaceStep) : Nat → Str → Str × List String
  | 0, s => (s, [])
  | _ + 1, [] => ([], [])
  | fuel + 1, c :: rest =>
    match mat (c :: rest) with
    | some step =>
      let tail := replaceScanF mat fuel step.rest
      (step.out ++ tail.1, step.errs ++ tail.2)
    | none =>
      let tail := replaceScanF mat fuel rest
      (c :: tail.1, tail.2)

def replaceScan (mat : Str → Option ReplaceStep) (s : Str) : Str × List String :=
  replaceScanF mat s.length s

/-- Match a literal (case-sensitively) at the start of a string. -/
def stripLit : Str → Str → Option Str
  | [], s => some s
  | _ :: _, [] => none
  | p :: ps, c :: cs => if p = c then stripLit ps cs else none

/-- The regex dot without the s flag: anything but a line terminator. -/
def isRegexDotChar (c : Char) : Bool :=
  !(c == '\n' || c == '\r' || c.toNat == 0x2028 || c.toNat == 0x2029)

/-- A single or double quote, the class ['"] in the import and require
patterns. -/
def isQuote (c : Char) : Bool := c.toNat == 39 || c == '"'

/-- Lazy dot-star up to a closing quote, for the js import pattern. -/
def quoteLazy : Str → Option Str
  | [] => none
  | c :: rest =>
    if isQuote c then some rest
    else if isRegexDotChar c then quoteLazy rest
    else none

/-- The continuation from whitespace-separated "from" up to the closing
quote in the js import pattern. -/
def jsFromPart (s : Str) : Option Str :=
  match stripLit "from".toList s with
  | none => none
  | some r1 =>
    match r1 with
    | c :: _ =>
      if isJsSpace c then
        match r1.dropWhile isJsSpace with
        | q :: r2 => if isQuote q then quoteLazy r2 else none
        | [] => none
      else none
    | [] => none

/-- Lazy dot-star before "from": at each position try the continuation
first, otherwise consume one non-line-terminator character. -/
def jsImportTail : Str → Option Str
  | [] => none
  | c :: rest =>
    match jsFromPart (c :: rest) with
    | some r => some r
    | none => if isRegexDotChar c then jsImportTail rest else none

/-- The js and ts import-statement replace pattern; the callback keeps
nothing and pushes no error. -/
def jsImportMat (s : Str) : Option ReplaceStep :=
  match stripLit "import".toList s with
  | none => none
  | some r1 =>
    match r1 with
    | c :: _ =>
      if isJsSpace c then
        match jsImportTail (r1.dropWhile isJsSpace) with
        | some rest => some ⟨[], [], rest⟩
        | none => none
      else none
    | [] => none

/-- Lazy dot-star up to a quote immediately followed by a closing
parenthesis, for the require pattern. -/
def quoteCloseLazy : Str → Option Str
  | [] => none
  | c :: rest =>
    if isQuote c then
      match rest with
      | ')' :: r => some r
      | _ => if isRegexDotChar c then quoteCloseLazy rest else none
    else if isRegexDotChar c then quoteCloseLazy rest else none

/-- The js and ts require-call replace pattern. -/
def requireMat (s : Str) : Option ReplaceStep :=
  match stripLit "require".toList s with
  | none => none
  | some r1 =>
    match r1.dropWhile isJsSpace with
    | '(' :: r2 =>
      match r2 with
      | q :: r3 =>
        if isQuote q then
          match quoteCloseLazy r3 with
          | some rest => some ⟨[], [], rest⟩
          | none => none
        else none
      | [] => none
    | _ => none

def allowedPythonImports : List Str :=
  ["math".toList, "random".toList, "datetime".toList, "collections".toList]

/-- The python import replace pattern: keep an allowed import, strip a
disallowed one and push an error naming the module. -/
def pythonImportMat (s : Str) : Option ReplaceStep :=
  match stripLit "import".toList s with
  | none => none
  | some r1 =>
    match r1 with
    | c :: _ =>
      if isJsSpace c then
        let wsRun := r1.takeWhile isJsSpace
        let r2 := r1.dropWhile isJsSpace
        let moduleChars := r2.takeWhile isWordChar
        if moduleChars.isEmpty then none
        else
          let rest := r2.drop moduleChars.length
          if allowedPythonImports.contains moduleChars then
            some ⟨"import".toList ++ wsRun ++ moduleChars, [], rest⟩
          else
            some ⟨[], ["Import of module \x27" ++ String.mk moduleChars ++
              "\x27 is not allowed"], rest⟩
      else none
    | [] => none

def allowedJavaImports : List Str :=
  ["java.util".toList, "java.lang".toList, "java.math".toList]

def isJavaPkgChar (c : Char) : Bool := isWordChar c || c == '.'

/-- The java import replace pattern: the package name may contain dots
and must be followed by a semicolon; allowed means the package starts
with an allowed prefix. -/
def javaImportMat (s : Str) : Option ReplaceStep :=
  match stripLit "import".toList s with
  | none => none
  | some r1 =>
    match r1 with
    | c :: _ =>
      if isJsSpace c then
        let wsRun := r1.takeWhile isJsSpace
        let r2 := r1.dropWhile isJsSpace
        let pkg := r2.takeWhile isJavaPkgChar
        if pkg.isEmpty then none
        else
          match r2.drop pkg.length with
          | ';' :: rest =>
            if allowedJavaImports.any (fun a => a.isPrefixOf pkg) then
              some ⟨"import".toList ++ wsRun ++ pkg ++ [';'], [], rest⟩
            else
              some ⟨[], ["Import of package \x27" ++ String.mk pkg ++
                "\x27 is not allowed"], rest⟩
          | _ => none
      else none
    | [] => none

def allowedCppHeaders : List Str :=
  ["iostream".toList, "string".toList, "vector".toList, "algorithm".toList]

def isCppHeaderChar (c : Char) : Bool := !(c == '>' || c == '"')

/-- The cpp include replace pattern: hash-include, whitespace, an
opening angle bracket or double quote, a non-empty header name, and a
closing angle bracket or double quote. -/
def cppIncludeMat (s : Str) : Option ReplaceStep :=
  match stripLit "#include".toList s with
  | none => none
  | some r1 =>
    match r1 with
    | c :: _ =>
      if isJsSpace c then
        let wsRun := r1.takeWhile isJsSpace
        let r2 := r1.dropWhile isJsSpace
        match r2 with
        | q :: r3 =>
          if q == '<' || q == '"' then
            let header := r3.takeWhile isCppHeaderChar
            if header.isEmpty then none
            else
              match r3.drop header.length with
              | q2 :: rest =>
                if q2 == '>' || q2 == '"' then
                  if allowedCppHeaders.contains header then
                    some ⟨"#include".toList ++ wsRun ++ q :: (header ++ [q2]), [], rest⟩
                  else
                    some ⟨[], ["Include of header \x27" ++ String.mk header ++
                      "\x27 is not allowed"], rest⟩
                else none
              | [] => none
          else none
        | [] => none
      else none
    | [] => none

/-- Lazy any-character run up to the closing star-slash of a block
comment. -/
def blockCommentClose : Str → Option Str
  | [] => none
  | '*' :: '/' :: rest => some rest
  | _ :: rest => blockCommentClose rest

/-- A line comment: two slashes then a maximal run of
non-line-terminator characters. -/
def lineCommentTry (s : Str) : Option ReplaceStep :=
  match s with
  | '/' :: '/' :: rest => some ⟨[], [], rest.dropWhile isRegexDotChar⟩
  | _ => none

/-- The comment replace pattern: a closed block comment, or else a line
comment. -/
def commentMat (s : Str) : Option ReplaceStep :=
  match s with
  | '/' :: '*' :: rest =>
    match blockCommentClose rest with
    | some r => some ⟨[], [], r⟩
    | none => lineCommentTry s
  | _ => lineCommentTry s

def isLineTerm (c : Char) : Bool :=
  c == '\n' || c == '\r' || c.toNat == 0x2028 || c.toNat == 0x2029

/-- Index of the last carriage return or newline in a string, when one
exists. -/
def lastNewlinePos : Str → Option Nat
  | [] => none
  | c :: rest =>
    match lastNewlinePos rest with
    | some n => some (n + 1)
    | none => if c == '\r' || c == '\n' then some 0 else none

/-- The blank-line removal replace, caret whitespace-star CR-or-LF with
the global and multiline flags: at each line start, the greedy
whitespace run backtracks to the last CR or LF inside it, and the match
is removed. -/
def stripBlankF : Nat → Bool → Str → Str
  | 0, _, s => s
  | _ + 1, _, [] => []
  | fuel + 1, atStart, c :: rest =>
    if atStart then
      match lastNewlinePos ((c :: rest).takeWhile isJsSpace) with
      | some n => stripBlankF fuel true ((c :: rest).drop (n + 1))
      | none => c :: stripBlankF fuel (isLineTerm c) rest
    else c :: stripBlankF fuel (isLineTerm c) rest

def stripBlankLines (s : Str) : Str := stripBlankF s.length true s

/-- The language switch of sanitizeCode: the import and include
stripping performed per language tag, together with the errors it
pushes. -/
def languageSanitize (language : String) (code : Str) : Str × List String :=
  match language.toLower with
  | "javascript" => ((replaceScan requireMat (replaceScan jsImportMat code).1).1, [])
  | "typescript" => ((replaceScan requireMat (replaceScan jsImportMat code).1).1, [])
  | "python" => replaceScan pythonImportMat code
  | "java" => replaceScan javaImportMat code
  | "cpp" => replaceScan cppIncludeMat code
  | _ => (code, [])

structure SanitizationResult where
  isValid : Bool
  sanitizedCode : Str
  errors : List String

/-- sanitizeCode: record one error per dangerous pattern matching the
original code, apply the language-specific import stripping, strip
comments and blank lines, and report validity as the absence of
errors. -/
def sanitizeCode (code : Str) (language : String) : SanitizationResult :=
  let patErrs := dangerousPatternErrors code
  let langResult := languageSanitize language code
  let noComments := (replaceScan commentMat langResult.1).1
  let cleaned := stripBlankLines noComments
  { isValid := (patErrs ++ langResult.2).isEmpty
  , sanitizedCode := cleaned
  , errors := patErrs ++ langResult.2 }

/- ------------------------------------------------------------------ -/
/- Content constructors used to state extraction properties             -/
/- ------------------------------------------------------------------ -/

/-- A fenced code block: three backticks, a language tag, a newline,
the body, and three closing backticks. -/
def fenceBlock (lang body : Str) : Str :=
  backtick :: backtick :: backtick :: (lang ++ '\n' :: (body ++ [backtick, backtick, backtick]))

/-- A sequence of fenced blocks, each followed by a gap of ordinary
text. -/
def blocksContent : List (Str × Str × Str) → Str
  | [] => []
  | (lang, body, gap) :: rest => fenceBlock lang body ++ gap ++ blocksContent rest

/-- Characters a dangerous pattern can begin with: ASCII letters and
the underscore. -/
def letterish (c : Char) : Bool := c.isUpper || c.isLower || c == '_'

/-- A pattern whose leading literal is non-empty and begins with a
letter or underscore after case folding; every dangerous pattern has
this shape. -/
def patHeadOk : Pat → Bool
  | Pat.lit [] => false
  | Pat.lit (c :: _) => letterish (toLowerA c)
  | Pat.ws [] _ _ => false
  | Pat.ws (c :: _) _ _ => letterish (toLowerA c)

/- ------------------------------------------------------------------ -/
/- Helper lemmas about the fenced-block scan                            -/
/- ------------------------------------------------------------------ -/

lemma scanBlocksF_nil (fuel : Nat) : scanBlocksF fuel [] = [] := by
  cases fuel <;> rfl

lemma length_dropWhile_le (p : Char → Bool) (l : Str) :
    (l.dropWhile p).length ≤ l.length := by
  induction l with
  | nil => simp [List.dropWhile]
  | cons c rest ih =>
    by_cases h : p c
    · simp only [List.dropWhile_cons, h, if_true]
      simp only [List.length_cons]
      omega
    · simp [List.dropWhile_cons, h]

lemma findClose_cons3 (c c2 c3 : Char) (r : Str) :
    findClose (c :: c2 :: c3 :: r) =
      if isBacktick c && isBacktick c2 && isBacktick c3 then some ([], r)
      else (findClose (c2 :: c3 :: r)).map (fun p => (c :: p.1, p.2)) := rfl

lemma findClose_length (s x r : Str) (h : findClose s = some (x, r)) :
    x.length + 3 + r.length = s.length := by
  induction s generalizing x r with
  | nil => simp [findClose] at h
  | cons c rest ih =>
    match rest with
    | [] => simp [findClose] at h
    | [c2] => simp [findClose] at h
    | c2 :: c3 :: rest2 =>
      rw [findClose_cons3] at h
      by_cases hb : (isBacktick c && isBacktick c2 && isBacktick c3) = true
      · rw [if_pos hb] at h
        obtain ⟨rfl, rfl⟩ : [] = x ∧ rest2 = r := by simpa using h
        simp only [List.length_cons, List.length_nil]
        omega
      · rw [if_neg hb] at h
        cases hfc : findClose (c2 :: c3 :: rest2) with
        | none => rw [hfc] at h; simp at h
        | some pr =>
          obtain ⟨x', r'⟩ := pr
          rw [hfc] at h
          simp only [Option.map_some'] at h
          obtain ⟨hx, hr⟩ : c :: x' = x ∧ r' = r := by simpa using h
          subst hx; subst hr
          have := ih x' r' hfc
          simp only [List.length_cons] at this ⊢
          omega

lemma matchFenceAt_length (s body after : Str) (h : matchFenceAt s = some (body, after)) :
    after.length < s.length := by
  match s with
  | [] => simp [matchFenceAt] at h
  | [c1] => simp [matchFenceAt] at h
  | [c1, c2] => simp [matchFenceAt] at h
  | c1 :: c2 :: c3 :: rest =>
    simp only [matchFenceAt] at h
    by_cases hb : (isBacktick c1 && isBacktick c2 && isBacktick c3) = true
    · rw [if_pos hb] at h
      cases hdw : rest.dropWhile isAsciiLetter with
      | nil => rw [hdw] at h; simp [matchAfterTicks] at h
      | cons d tail =>
        rw [hdw] at h
        simp only [matchAfterTicks] at h
        by_cases hd : d = '\n'
        · rw [if_pos hd] at h
          have hl := findClose_length tail body after h
          have hdl : tail.length + 1 ≤ rest.length := by
            have hle := length_dropWhile_le isAsciiLetter rest
            rw [hdw] at hle
            simpa using hle
          simp only [List.length_cons]
          omega
        · rw [if_neg hd] at h; simp at h
    · rw [if_neg hb] at h; simp at h

lemma scanBlocksF_cons_some (f : Nat) (c : Char) (rest body after : Str)
    (h : matchFenceAt (c :: rest) = some (body, after)) :
    scanBlocksF (f + 1) (c :: rest) = body :: scanBlocksF f after := by
  simp only [scanBlocksF, h]

lemma scanBlocksF_consNone (f : Nat) (c : Char) (rest : Str)
    (h : matchFenceAt (c :: rest) = none) :
    scanBlocksF (f + 1) (c :: rest) = scanBlocksF f rest := by
  simp only [scanBlocksF, h]

lemma scanBlocksF_congr (fuel : Nat) (s : Str) (h : s.length ≤ fuel) :
    scanBlocksF fuel s = scanBlocksF s.length s := by
  induction fuel using Nat.strong_induction_on generalizing s with
  | _ fuel ih =>
    match fuel, s with
    | _, [] => rw [scanBlocksF_nil, scanBlocksF_nil]
    | 0, c :: rest => simp at h
    | f + 1, c :: rest =>
      have hlen : rest.length ≤ f := by
        simp only [List.length_cons] at h
        omega
      simp only [List.length_cons]
      cases hm : matchFenceAt (c :: rest) with
      | none =>
        rw [scanBlocksF_consNone f c rest hm, scanBlocksF_consNone rest.length c rest hm,
          ih f (by omega) rest hlen]
      | some pr =>
        obtain ⟨body, after⟩ := pr
        have ha : after.length ≤ rest.length := by
          have := matchFenceAt_length _ _ _ hm
          simp only [List.length_cons] at this
          omega
        rw [scanBlocksF_cons_some f c rest body after hm,
          scanBlocksF_cons_some rest.length c rest body after hm,
          ih f (by omega) after (by omega), ih rest.length (by omega) after ha]

lemma scanBlocks_cons_none (c : Char) (rest : Str) (h : matchFenceAt (c :: rest) = none) :
    scanBlocks (c :: rest) = scanBlocks rest := by
  unfold scanBlocks
  simp only [List.length_cons]
  exact scanBlocksF_consNone rest.length c rest h

lemma scanBlocks_match (s body after : Str) (h : matchFenceAt s = some (body, after)) :
    scanBlocks s = body :: scanBlocks after := by
  match s with
  | [] => simp [matchFenceAt] at h
  | c :: rest =>
    unfold scanBlocks
    simp only [List.length_cons]
    rw [scanBlocksF_cons_some rest.length c rest body after h]
    have hl := matchFenceAt_length _ _ _ h
    simp only [List.length_cons] at hl
    rw [scanBlocksF_congr rest.length after (by omega)]

lemma matchFenceAt_cons_none (c : Char) (t : Str) (h : isBacktick c = false) :
    matchFenceAt (c :: t) = none := by
  match t with
  | [] => rfl
  | [c2] => rfl
  | c2 :: c3 :: rest => simp [matchFenceAt, h]

lemma scanBlocks_append_free (g s : Str) (hg : ∀ c ∈ g, isBacktick c = false) :
    scanBlocks (g ++ s) = scanBlocks s := by
  induction g with
  | nil => simp
  | cons c g' ih =>
    have hc : isBacktick c = false := hg c (by simp)
    rw [List.cons_append, scanBlocks_cons_none _ _ (matchFenceAt_cons_none c (g' ++ s) hc),
      ih (fun x hx => hg x (by simp [hx]))]

lemma findClose_cons_notbt (c : Char) (t : Str) (hc : isBacktick c = false) :
    findClose (c :: t) = (findClose t).map (fun p => (c :: p.1, p.2)) := by
  match t with
  | [] => simp [findClose]
  | [c2] => simp [findClose]
  | c2 :: c3 :: rest2 => simp [findClose, hc]

lemma findClose_append (body s : Str) (hb : ∀ c ∈ body, isBacktick c = false) :
    findClose (body ++ backtick :: backtick :: backtick :: s) = some (body, s) := by
  induction body with
  | nil =>
    simp only [List.nil_append]
    have hbt : isBacktick backtick = true := by decide
    simp [findClose, hbt]
  | cons c body' ih =>
    have hc : isBacktick c = false := hb c (by simp)
    rw [List.cons_append, findClose_cons_notbt c _ hc,
      ih (fun x hx => hb x (by simp [hx]))]
    rfl

lemma dropWhile_letters (lang y : Str) (hl : ∀ c ∈ lang, isAsciiLetter c = true) :
    (lang ++ '\n' :: y).dropWhile isAsciiLetter = '\n' :: y := by
  induction lang with
  | nil =>
    have : isAsciiLetter '\n' = false := by decide
    simp [List.dropWhile_cons, this]
  | cons c l ih =>
    have hc : isAsciiLetter c = true := hl c (by simp)
    rw [List.cons_append]
    simp only [List.dropWhile_cons, hc, if_true]
    exact ih (fun d hd => hl d (by simp [hd]))

lemma matchFenceAt_fence (lang body s : Str)
    (hl : ∀ c ∈ lang, isAsciiLetter c = true)
    (hb : ∀ c ∈ body, isBacktick c = false) :
    matchFenceAt (fenceBlock lang body ++ s) = some (body, s) := by
  have hshape : fenceBlock lang body ++ s =
      backtick :: backtick :: backtick ::
        (lang ++ '\n' :: (body ++ backtick :: backtick :: backtick :: s)) := by
    simp [fenceBlock]
  rw [hshape]
  have hbt : isBacktick backtick = true := by decide
  simp only [matchFenceAt, hbt, Bool.and_self, if_true]
  rw [dropWhile_letters lang _ hl]
  simp only [matchAfterTicks, if_pos rfl]
  exact findClose_append body s hb

lemma scanBlocks_blocksContent (g : Str) (blocks : List (Str × Str × Str))
    (hg : ∀ c ∈ g, isBacktick c = false)
    (hb : ∀ b ∈ blocks, (∀ c ∈ b.1, isAsciiLetter c = true) ∧
      (∀ c ∈ b.2.1, isBacktick c = false) ∧ (∀ c ∈ b.2.2, isBacktick c = false)) :
    scanBlocks (g ++ blocksContent blocks) = blocks.map (fun b => b.2.1) := by
  induction blocks generalizing g with
  | nil =>
    rw [blocksContent, List.append_nil, List.map_nil]
    have hfree := scanBlocks_append_free g [] hg
    rw [List.append_nil] at hfree
    rw [hfree]
    rfl
  | cons b rest ih =>
    obtain ⟨lang, body, gap⟩ := b
    obtain ⟨h1, h2, h3⟩ := hb (lang, body, gap) (by simp)
    rw [blocksContent, scanBlocks_append_free g _ hg, List.append_assoc,
      scanBlocks_match _ _ _ (matchFenceAt_fence lang body (gap ++ blocksContent rest) h1 h2),
      ih gap h3 (fun b hb' => hb b (by simp [hb']))]
    rfl

/- ------------------------------------------------------------------ -/
/- Helper lemmas about the transcript scan                              -/
/- ------------------------------------------------------------------ -/

lemma find?_append_none {α : Type} (p : α → Bool) (l1 l2 : List α)
    (h : ∀ x ∈ l1, p x = false) : (l1 ++ l2).find? p = l2.find? p := by
  induction l1 with
  | nil => rfl
  | cons a t ih =>
    rw [List.cons_append, List.find?_cons, h a (by simp)]
    exact ih (fun x hx => h x (by simp [hx]))

lemma lastAssistantMessage_append (ts us : List ChatMessage) (m : ChatMessage)
    (hm : m.role = Role.assistant) (hus : ∀ x ∈ us, x.role = Role.user) :
    lastAssistantMessage (ts ++ m :: us) = some m := by
  unfold lastAssistantMessage
  rw [List.reverse_append, List.reverse_cons, List.append_assoc]
  rw [find?_append_none _ us.reverse _ (fun x hx => by
    have := hus x (List.mem_reverse.mp hx)
    simp [this])]
  rw [List.singleton_append, List.find?_cons, hm]
  simp

lemma lastAssistantMessage_all_user (chat : List ChatMessage)
    (h : ∀ m ∈ chat, m.role = Role.user) : lastAssistantMessage chat = none := by
  unfold lastAssistantMessage
  rw [List.find?_eq_none]
  intro x hx
  have := h x (List.mem_reverse.mp hx)
  simp [this]

/- ------------------------------------------------------------------ -/
/- Helper lemmas about the sanitizer patterns                           -/
/- ------------------------------------------------------------------ -/

lemma ciStrip_map (target occ s : Str) (h : occ.map toLowerA = target.map toLowerA) :
    ciStrip target (occ ++ s) = some s := by
  induction target generalizing occ with
  | nil =>
    have h0 : occ.map toLowerA = [] := by simpa using h
    have : occ = [] := List.map_eq_nil_iff.mp h0
    subst this
    rfl
  | cons t ts ih =>
    cases occ with
    | nil => simp at h
    | cons o os =>
      simp only [List.map_cons, List.cons.injEq] at h
      obtain ⟨h1, h2⟩ := h
      simp only [List.cons_append, ciStrip]
      rw [if_pos (by simp [ciEq, h1])]
      exact ih os h2

lemma ciStrip_append (p1 p2 s r : Str) (h : ciStrip p1 s = some r) :
    ciStrip (p1 ++ p2) s = ciStrip p2 r := by
  induction p1 generalizing s with
  | nil =>
    simp only [ciStrip] at h
    obtain rfl : s = r := by simpa using h
    rfl
  | cons p ps ih =>
    cases s with
    | nil => simp [ciStrip] at h
    | cons c cs =>
      simp only [ciStrip, List.cons_append] at h ⊢
      by_cases hc : ciEq p c = true
      · rw [if_pos hc] at h ⊢
        exact ih cs h
      · rw [if_neg hc] at h
        simp at h

lemma patTest_of_at (p : Pat) (pre s : Str) (h : patTestAt p s = true) :
    patTest p (pre ++ s) = true := by
  induction pre with
  | nil =>
    cases s with
    | nil => simpa [patTest]
    | cons c cs => simp [patTest, h]
  | cons c cs ih => simp [patTest, ih]

lemma toLowerA_eq_self (c : Char) (h : c.isUpper = false) : toLowerA c = c := by
  simp [toLowerA, h]

lemma ciEq_letterish (p c : Char) (hp : letterish (toLowerA p) = true)
    (h : ciEq p c = true) : letterish c = true := by
  have heq : toLowerA p = toLowerA c := by simpa [ciEq] using h
  by_cases hc : c.isUpper = true
  · simp [letterish, hc]
  · have hself : toLowerA c = c :=
      toLowerA_eq_self c (by simpa using hc)
    rw [heq, hself] at hp
    exact hp

lemma patterns_headOk : ∀ p ∈ DANGEROUS_PATTERNS, patHeadOk p = true := by decide

lemma patTestAt_head (p : Pat) (hq : patHeadOk p = true) (s : Str)
    (h : patTestAt p s = true) : ∃ c s', s = c :: s' ∧ letterish c = true := by
  cases p with
  | lit w =>
    cases w with
    | nil => simp [patHeadOk] at hq
    | cons w0 ws =>
      cases s with
      | nil => simp [patTestAt, ciStrip] at h
      | cons c s' =>
        refine ⟨c, s', rfl, ?_⟩
        simp only [patTestAt, ciStrip] at h
        by_cases hc : ciEq w0 c = true
        · exact ciEq_letterish w0 c (by simpa [patHeadOk] using hq) hc
        · rw [if_neg hc] at h
          simp at h
  | ws a plus b =>
    cases a with
    | nil => simp [patHeadOk] at hq
    | cons a0 as =>
      cases s with
      | nil => simp [patTestAt, ciStrip] at h
      | cons c s' =>
        refine ⟨c, s', rfl, ?_⟩
        by_cases hc : ciEq a0 c = true
        · exact ciEq_letterish a0 c (by simpa [patHeadOk] using hq) hc
        · simp only [patTestAt, ciStrip, if_neg hc] at h
          exact absurd h (by decide)

lemma patTest_letterish (p : Pat) (hq : patHeadOk p = true) (s : Str)
    (h : patTest p s = true) : ∃ c ∈ s, letterish c = true := by
  induction s with
  | nil =>
    rw [patTest] at h
    obtain ⟨c, s', heq, _⟩ := patTestAt_head p hq [] h
    exact absurd heq (by simp)
  | cons c rest ih =>
    rw [patTest, Bool.or_eq_true] at h
    rcases h with h1 | h2
    · obtain ⟨c', s', heq, hl⟩ := patTestAt_head p hq _ h1
      injection heq with hc hs
      subst hc
      exact ⟨c, by simp, hl⟩
    · obtain ⟨d, hd, hl⟩ := ih h2
      exact ⟨d, by simp [hd], hl⟩

/- ------------------------------------------------------------------ -/
/- Helper lemmas about the panel invariant                              -/
/- ------------------------------------------------------------------ -/

lemma panel_inv_step (st : PanelState) (ev : PanelEvent)
    (h : minWidth ≤ st.width ∧ st.width ≤ maxWidth) :
    minWidth ≤ (panelStep st ev).width ∧ (panelStep st ev).width ≤ maxWidth := by
  cases ev with
  | mouseDown => simpa [panelStep] using h
  | mouseUp => simpa [panelStep] using h
  | mouseMove w x =>
    simp only [panelStep, handleMouseMove]
    split
    · exact h
    · refine ⟨le_min (le_max_right _ _) (by decide), min_le_right _ _⟩

lemma panel_inv_fold (events : List PanelEvent) (st : PanelState)
    (h : minWidth ≤ st.width ∧ st.width ≤ maxWidth) :
    minWidth ≤ (events.foldl panelStep st).width ∧
      (events.foldl panelStep st).width ≤ maxWidth := by
  induction events generalizing st with
  | nil => exact h
  | cons e t ih => exact ih (panelStep st e) (panel_inv_step st e h)

/- ------------------------------------------------------------------ -/
/- Coordinator step characterisation                                    -/
/- ------------------------------------------------------------------ -/

lemma coordinatorStep_new (ed : EditorModel) (chat : List ChatMessage) (st : CoordState)
    (lastAI : ChatMessage) (m : Str)
    (hla : lastAssistantMessage chat = some lastAI)
    (hgl : (scanBlocks lastAI.content).getLast? = some m)
    (hchat : chat.isEmpty = false)
    (hnp : ∀ p, st.pendingSuggestion = some p → p.code ≠ jsTrim m)
    (hnl : st.lastSuggestedCode ≠ some (jsTrim m)) :
    coordinatorStep (some ed) chat st =
      match ed.selection with
      | some selection =>
        if !selection.isEmpty then
          { st with pendingSuggestion := some ⟨SuggestionType.replace, jsTrim m, some selection⟩ }
        else { st with pendingSuggestion := some ⟨SuggestionType.insert, jsTrim m, none⟩ }
      | none => { st with pendingSuggestion := some ⟨SuggestionType.insert, jsTrim m, none⟩ } := by
  have hl2 : decide (st.lastSuggestedCode = some (jsTrim m)) = false := by simp [hnl]
  cases hsel : ed.selection with
  | none =>
    cases hps : st.pendingSuggestion with
    | none =>
      simp [coordinatorStep, hchat, hla, hgl, hps, hl2, EditorModel.getSelection, hsel]
    | some p =>
      have hnp' : decide (p.code = jsTrim m) = false := by simp [hnp p hps]
      simp [coordinatorStep, hchat, hla, hgl, hps, hnp', hl2, EditorModel.getSelection, hsel]
  | some sel =>
    cases hps : st.pendingSuggestion with
    | none =>
      simp [coordinatorStep, hchat, hla, hgl, hps, hl2, EditorModel.getSelection, hsel]
    | some p =>
      have hnp' : decide (p.code = jsTrim m) = false := by simp [hnp p hps]
      simp [coordinatorStep, hchat, hla, hgl, hps, hnp', hl2, EditorModel.getSelection, hsel]

/- ------------------------------------------------------------------ -/
/- Claim theorems                                                       -/
/- ------------------------------------------------------------------ -/

/-- C1: whenever the coordinator re-evaluates with the editor mounted,
the extracted latest code block non-empty, and that block different
from both the pending suggestion code and the last suggested code, it
creates a pending replace suggestion capturing the current selection
range when the selection is non-empty, and a pending insert suggestion
with no range when the selection is empty or absent. -/
theorem coordinator_new_block_intent (ed : EditorModel) (chat : List ChatMessage)
    (st : CoordState)
    (hne : getLastCodeBlock chat ≠ [])
    (hpend : ∀ p, st.pendingSuggestion = some p → p.code ≠ getLastCodeBlock chat)
    (hlast : st.lastSuggestedCode ≠ some (getLastCodeBlock chat)) :
    (∀ sel, ed.selection = some sel → sel.isEmpty = false →
      coordinatorStep (some ed) chat st =
        { st with pendingSuggestion := some ⟨SuggestionType.replace, getLastCodeBlock chat, some sel⟩ }) ∧
    (∀ sel, ed.selection = some sel → sel.isEmpty = true →
      coordinatorStep (some ed) chat st =
        { st with pendingSuggestion := some ⟨SuggestionType.insert, getLastCodeBlock chat, none⟩ }) ∧
    (ed.selection = none →
      coordinatorStep (some ed) chat st =
        { st with pendingSuggestion := some ⟨SuggestionType.insert, getLastCodeBlock chat, none⟩ }) := by
  cases hla : lastAssistantMessage chat with
  | none => exact absurd (by simp [getLastCodeBlock, hla]) hne
  | some lastAI =>
    cases hgl : (scanBlocks lastAI.content).getLast? with
    | none => exact absurd (by simp [getLastCodeBlock, hla, hgl]) hne
    | some m =>
      have hcode : getLastCodeBlock chat = jsTrim m := by
        simp [getLastCodeBlock, hla, hgl]
      have hchat : chat.isEmpty = false := by
        cases chat with
        | nil => simp [lastAssistantMessage] at hla
        | cons a t => rfl
      rw [hcode] at hpend hlast ⊢
      have hmain := coordinatorStep_new ed chat st lastAI m hla hgl hchat hpend hlast
      refine ⟨?_, ?_, ?_⟩
      · intro sel hsel hemp
        rw [hmain, hsel]
        simp [hemp]
      · intro sel hsel hemp
        rw [hmain, hsel]
        simp [hemp]
      · intro hsel
        rw [hmain, hsel]

/-- C1 witness: the spec scenario with a non-empty selection covering
lines 3 to 5 produces a pending replace suggestion capturing exactly
that range. -/
theorem coordinator_new_block_intent_witness :
    coordinatorStep (some ⟨some ⟨3, 1, 5, 10⟩⟩)
      [⟨Role.assistant, "Here:\n```python\ndef s(x): return sorted(x)\n```".toList⟩]
      ⟨none, none⟩ =
      ⟨some ⟨SuggestionType.replace, "def s(x): return sorted(x)".toList, some ⟨3, 1, 5, 10⟩⟩,
        none⟩ := by
  have h := (coordinator_new_block_intent ⟨some ⟨3, 1, 5, 10⟩⟩
    [⟨Role.assistant, "Here:\n```python\ndef s(x): return sorted(x)\n```".toList⟩]
    ⟨none, none⟩ (by decide) (fun p hp => nomatch hp) (by decide)).1
    ⟨3, 1, 5, 10⟩ rfl (by decide)
  rw [h]
  decide

/-- C2: when the extracted latest code block equals the pending
suggestion code or the last suggested code, re-evaluating the
coordinator leaves the state unchanged. -/
theorem coordinator_suppression_idempotent (ed : Option EditorModel)
    (chat : List ChatMessage) (st : CoordState)
    (h : (∃ p, st.pendingSuggestion = some p ∧ p.code = getLastCodeBlock chat) ∨
      st.lastSuggestedCode = some (getLastCodeBlock chat)) :
    coordinatorStep ed chat st = st := by
  cases ed with
  | none => rfl
  | some e =>
    by_cases hchat : chat.isEmpty = true
    · simp [coordinatorStep, hchat]
    · cases hla : lastAssistantMessage chat with
      | none => simp [coordinatorStep, hchat, hla]
      | some lastAI =>
        cases hgl : (scanBlocks lastAI.content).getLast? with
        | none => simp [coordinatorStep, hchat, hla, hgl]
        | some m =>
          have hcode : getLastCodeBlock chat = jsTrim m := by
            simp [getLastCodeBlock, hla, hgl]
          rw [hcode] at h
          rcases h with ⟨p, hps, hpc⟩ | hlc
          · simp [coordinatorStep, hchat, hla, hgl, hps, hpc]
          · simp [coordinatorStep, hchat, hla, hgl, hlc]

/-- C2 witness: a block already recorded in LastSuggestedCode does not
re-open a suggestion. -/
theorem coordinator_suppression_idempotent_witness :
    coordinatorStep (some ⟨none⟩) [⟨Role.assistant, "```\nX```".toList⟩]
      ⟨none, some "X".toList⟩ = ⟨none, some "X".toList⟩ :=
  coordinator_suppression_idempotent _ _ _ (Or.inr (by decide))

/-- C7 counterexample: with the editor surface absent, a transcript
holding a fresh non-empty code block leaves the coordinator state
untouched and no pending suggestion is computed, contrary to the claim
that pending state is still computed. -/
theorem coordinator_unmounted_counterexample :
    getLastCodeBlock [⟨Role.assistant, "```python\ndef f(): pass\n```".toList⟩] ≠ [] ∧
    coordinatorStep none [⟨Role.assistant, "```python\ndef f(): pass\n```".toList⟩]
      ⟨none, none⟩ = ⟨none, none⟩ ∧
    (coordinatorStep none [⟨Role.assistant, "```python\ndef f(): pass\n```".toList⟩]
      ⟨none, none⟩).pendingSuggestion = none := by
  decide

/-- C7 amended: while the editor surface is unavailable the coordinator
performs no transition at all: the state, including the pending
suggestion slot, is left unchanged on every transcript change. -/
theorem coordinator_unmounted_noop (chat : List ChatMessage) (st : CoordState) :
    coordinatorStep none chat st = st := rfl

/-- C4 counterexample: a transcript ending in a user message whose
earlier assistant message contains a fenced block extracts that block,
not empty. -/
theorem extraction_trailing_user_counterexample :
    getLastCodeBlock
      [⟨Role.assistant, "```python\nX```".toList⟩, ⟨Role.user, "thanks".toList⟩]
      = "X".toList ∧
    "X".toList ≠ ([] : Str) := by
  decide

/-- C4 amended: a transcript containing no assistant message, in
particular the empty transcript, extracts the empty string; a trailing
non-assistant message does not make extraction empty, because the scan
uses the most recent assistant message anywhere in the transcript. -/
theorem extraction_empty_without_assistant (chat : List ChatMessage)
    (h : ∀ m ∈ chat, m.role = Role.user) : getLastCodeBlock chat = [] := by
  simp [getLastCodeBlock, lastAssistantMessage_all_user chat h]

/-- C4 witness: a transcript of user messages only extracts nothing. -/
theorem extraction_empty_without_assistant_witness :
    getLastCodeBlock [⟨Role.user, "hi".toList⟩] = [] :=
  extraction_empty_without_assistant _ (by decide)

/-- C5: the completion client fails with the raw response body on a
non-2xx response, and returns the fixed fallback string instead of
failing when a success response carries no content. -/
theorem completion_client_outcomes (resp : HttpResponse) :
    (responseOk resp = false → fetchOpenAICompletion resp = Except.error resp.bodyText) ∧
    (responseOk resp = true → (resp.content = none ∨ resp.content = some []) →
      fetchOpenAICompletion resp = Except.ok "No response from AI.".toList) := by
  constructor
  · intro h
    simp [fetchOpenAICompletion, h]
  · intro h hc
    rcases hc with hc | hc <;> simp [fetchOpenAICompletion, h, hc]

/-- C5 witness: a 401 response fails with its body, a 200 response with
no content yields the fallback string. -/
theorem completion_client_outcomes_witness :
    fetchOpenAICompletion ⟨401, "Unauthorized".toList, none⟩ =
      Except.error "Unauthorized".toList ∧
    fetchOpenAICompletion ⟨200, "ok".toList, none⟩ =
      Except.ok "No response from AI.".toList :=
  ⟨(completion_client_outcomes _).1 (by decide),
   (completion_client_outcomes _).2 (by decide) (Or.inl rfl)⟩

/-- C6: sending a non-empty prompt against a failing completion call
appends the user message and an assistant message prefixed "Error: ";
the operation is total, so the failure never escapes to the caller. -/
theorem handleSend_error_append (prompt : Str) (chat : List ChatMessage)
    (resp : HttpResponse)
    (hp : (jsTrim prompt).isEmpty = false)
    (hfail : responseOk resp = false) :
    ∃ rest, handleSend prompt chat resp =
      chat ++ [⟨Role.user, prompt⟩, ⟨Role.assistant, "Error: ".toList ++ rest⟩] := by
  refine ⟨if resp.bodyText.isEmpty then "Failed to fetch AI response.".toList
    else resp.bodyText, ?_⟩
  simp [handleSend, hp, fetchOpenAICompletion, hfail]

/-- C6 witness: a 401 failure appends the user prompt and an assistant
message starting with "Error: ". -/
theorem handleSend_error_append_witness :
    ∃ rest, handleSend "fix".toList [] ⟨401, "Unauthorized".toList, none⟩ =
      [⟨Role.user, "fix".toList⟩, ⟨Role.assistant, "Error: ".toList ++ rest⟩] := by
  obtain ⟨rest, h⟩ := handleSend_error_append "fix".toList []
    ⟨401, "Unauthorized".toList, none⟩ (by decide) (by decide)
  exact ⟨rest, by simpa using h⟩

/-- C8: the panel bounds are the fixed constants 320 and 700, the
default width is 400, and the width stays within the bounds over every
sequence of pointer events, wherever the pointer moves. -/
theorem panel_width_bounded :
    minWidth = 320 ∧ maxWidth = 700 ∧ initialPanelState.width = 400 ∧
    ∀ events : List PanelEvent,
      minWidth ≤ (panelRun events).width ∧ (panelRun events).width ≤ maxWidth := by
  refine ⟨rfl, rfl, rfl, ?_⟩
  intro events
  exact panel_inv_fold events initialPanelState (by constructor <;> decide)

/-- C3: when the most recent assistant message consists of fenced
blocks separated by backtick-free text and followed only by user
messages, extraction returns the body of the last block, trimmed. -/
theorem extraction_returns_last_block
    (ts us : List ChatMessage) (g0 : Str) (blocks : List (Str × Str × Str))
    (lastLang lastBody lastGap : Str)
    (hus : ∀ x ∈ us, x.role = Role.user)
    (hg0 : ∀ c ∈ g0, isBacktick c = false)
    (hblocks : ∀ b ∈ blocks, (∀ c ∈ b.1, isAsciiLetter c = true) ∧
      (∀ c ∈ b.2.1, isBacktick c = false) ∧ (∀ c ∈ b.2.2, isBacktick c = false))
    (hlang : ∀ c ∈ lastLang, isAsciiLetter c = true)
    (hbody : ∀ c ∈ lastBody, isBacktick c = false)
    (hgap : ∀ c ∈ lastGap, isBacktick c = false) :
    getLastCodeBlock (ts ++
        ⟨Role.assistant, g0 ++ blocksContent (blocks ++ [(lastLang, lastBody, lastGap)])⟩ :: us)
      = jsTrim lastBody := by
  have hla := lastAssistantMessage_append ts us
    ⟨Role.assistant, g0 ++ blocksContent (blocks ++ [(lastLang, lastBody, lastGap)])⟩ rfl hus
  have hcond : ∀ b ∈ blocks ++ [(lastLang, lastBody, lastGap)],
      (∀ c ∈ b.1, isAsciiLetter c = true) ∧
      (∀ c ∈ b.2.1, isBacktick c = false) ∧ (∀ c ∈ b.2.2, isBacktick c = false) := by
    intro b hbmem
    rcases List.mem_append.mp hbmem with hmem | hmem
    · exact hblocks b hmem
    · have : b = (lastLang, lastBody, lastGap) := by simpa using hmem
      subst this
      exact ⟨hlang, hbody, hgap⟩
  have hscan := scanBlocks_blocksContent g0 (blocks ++ [(lastLang, lastBody, lastGap)]) hg0 hcond
  simp only [getLastCodeBlock, hla]
  rw [hscan, List.map_append]
  simp only [List.map_cons, List.map_nil]
  rw [List.getLast?_concat]

/-- C3 witness: an assistant message carrying fenced blocks A then B
extracts B. -/
theorem extraction_returns_last_block_witness :
    getLastCodeBlock [⟨Role.assistant,
      "Here:\n".toList ++ blocksContent
        [("python".toList, "A".toList, "\n".toList), ("python".toList, "B".toList, [])]⟩]
      = "B".toList := by
  have h := extraction_returns_last_block [] [] "Here:\n".toList
    [("python".toList, "A".toList, "\n".toList)] "python".toList "B".toList []
    (by simp) (by decide) (by decide) (by decide) (by decide) (by decide)
  simpa using h

/-- C9: isCodeSafe rejects every input containing eval, fetch (each
immediately followed by a parenthesis, any casing of the letters) or
document followed by a dot in any casing, and accepts every input
containing no letters and no underscore, which covers arithmetic-only
input. -/
theorem isCodeSafe_pattern_classification :
    (∀ pre occ post : Str, occ.map toLowerA = "eval".toList →
      isCodeSafe (pre ++ occ ++ '(' :: post) = false) ∧
    (∀ pre occ post : Str, occ.map toLowerA = "fetch".toList →
      isCodeSafe (pre ++ occ ++ '(' :: post) = false) ∧
    (∀ pre occ post : Str, occ.map toLowerA = "document".toList →
      isCodeSafe (pre ++ occ ++ '.' :: post) = false) ∧
    (∀ s : Str, (∀ c ∈ s, letterish c = false) → isCodeSafe s = true) := by
  have hws : ∀ a : Str, Pat.ws a false "(".toList ∈ DANGEROUS_PATTERNS →
      ∀ pre occ post : Str, occ.map toLowerA = a.map toLowerA →
      isCodeSafe (pre ++ occ ++ '(' :: post) = false := by
    intro a hmem pre occ post hocc
    have hat : patTestAt (Pat.ws a false "(".toList) (occ ++ '(' :: post) = true := by
      have hstrip := ciStrip_map a occ ('(' :: post) hocc
      have hnws : isJsSpace '(' = false := by decide
      have hci : ciEq '(' '(' = true := by decide
      have hb : "(".toList = ['('] := rfl
      simp [patTestAt, hstrip, List.dropWhile_cons, hnws, hb, ciStrip, hci]
    have htest : patTest (Pat.ws a false "(".toList) (pre ++ (occ ++ '(' :: post)) = true :=
      patTest_of_at _ pre _ hat
    have hany : DANGEROUS_PATTERNS.any
        (fun p => patTest p (pre ++ occ ++ '(' :: post)) = true := by
      rw [List.append_assoc]
      exact List.any_eq_true.mpr ⟨_, hmem, htest⟩
    simp only [isCodeSafe, hany, Bool.not_true]
  refine ⟨?_, ?_, ?_, ?_⟩
  · intro pre occ post h
    exact hws "eval".toList (by decide) pre occ post (h.trans (by decide))
  · intro pre occ post h
    exact hws "fetch".toList (by decide) pre occ post (h.trans (by decide))
  · intro pre occ post h
    have hocc : occ.map toLowerA = "document".toList.map toLowerA := h.trans (by decide)
    have hstrip1 := ciStrip_map "document".toList occ ('.' :: post) hocc
    have hchain := ciStrip_append "document".toList ['.'] (occ ++ '.' :: post)
      ('.' :: post) hstrip1
    have hdot : ciStrip ['.'] ('.' :: post) = some post := by
      have hci : ciEq '.' '.' = true := by decide
      simp [ciStrip, hci]
    have hsplit : "document.".toList = "document".toList ++ ['.'] := rfl
    have hat : patTestAt (Pat.lit "document.".toList) (occ ++ '.' :: post) = true := by
      have hstr : ciStrip "document.".toList (occ ++ '.' :: post) = some post := by
        rw [hsplit, hchain, hdot]
      simp only [patTestAt]
      rw [hstr]
      rfl
    have htest : patTest (Pat.lit "document.".toList) (pre ++ (occ ++ '.' :: post)) = true :=
      patTest_of_at _ pre _ hat
    have hany : DANGEROUS_PATTERNS.any
        (fun p => patTest p (pre ++ occ ++ '.' :: post)) = true := by
      rw [List.append_assoc]
      exact List.any_eq_true.mpr ⟨Pat.lit "document.".toList, by decide, htest⟩
    simp only [isCodeSafe, hany, Bool.not_true]
  · intro s hs
    have hfalse : DANGEROUS_PATTERNS.any (fun p => patTest p s) = false := by
      by_contra hA
      have hA' : DANGEROUS_PATTERNS.any (fun p => patTest p s) = true := by
        simpa using hA
      obtain ⟨p, hp, ht⟩ := List.any_eq_true.mp hA'
      obtain ⟨c, hc, hl⟩ := patTest_letterish p (patterns_headOk p hp) s ht
      rw [hs c hc] at hl
      exact absurd hl (by decide)
    simp [isCodeSafe, hfalse]

/-- C9 witness: concrete cased occurrences of eval, fetch and document
are rejected; an arithmetic-only expression is accepted. -/
theorem isCodeSafe_pattern_classification_witness :
    isCodeSafe ("x = ".toList ++ "EVAL".toList ++ '(' :: "1)".toList) = false ∧
    isCodeSafe ("".toList ++ "FeTcH".toList ++ '(' :: "url)".toList) = false ∧
    isCodeSafe ("a ".toList ++ "DoCuMeNt".toList ++ '.' :: "write".toList) = false ∧
    isCodeSafe "1 + 2 * (3 - 4) / 5".toList = true :=
  ⟨(isCodeSafe_pattern_classification).1 "x = ".toList "EVAL".toList "1)".toList (by decide),
   (isCodeSafe_pattern_classification).2.1 "".toList "FeTcH".toList "url)".toList (by decide),
   (isCodeSafe_pattern_classification).2.2.1 "a ".toList "DoCuMeNt".toList "write".toList
     (by decide),
   (isCodeSafe_pattern_classification).2.2.2 "1 + 2 * (3 - 4) / 5".toList (by decide)⟩

/-- C10: an unsafe input always sanitizes to an invalid result with a
non-empty error list, for every language tag, because one error is
recorded per dangerous pattern matching the original input and
validity is exactly the absence of errors. -/
theorem sanitize_unsafe_invalid (code : Str) (language : String)
    (h : isCodeSafe code = false) :
    (sanitizeCode code language).isValid = false ∧
      (sanitizeCode code language).errors ≠ [] := by
  have hany : DANGEROUS_PATTERNS.any (fun p => patTest p code) = true := by
    simpa [isCodeSafe] using h
  obtain ⟨p, hmem, hp⟩ := List.any_eq_true.mp hany
  have hfil : p ∈ DANGEROUS_PATTERNS.filter (fun p => patTest p code) :=
    List.mem_filter.mpr ⟨hmem, hp⟩
  have hne : dangerousPatternErrors code ≠ [] := by
    unfold dangerousPatternErrors
    intro hcontra
    rw [List.map_eq_nil_iff] at hcontra
    rw [hcontra] at hfil
    exact absurd hfil (by simp)
  cases hpe : dangerousPatternErrors code with
  | nil => exact absurd hpe hne
  | cons e es =>
    constructor
    · simp [sanitizeCode, hpe]
    · simp [sanitizeCode, hpe]

/-- C10 witness: an eval call is unsafe and sanitizes to an invalid
result with errors, here under the python language tag. -/
theorem sanitize_unsafe_invalid_witness :
    (sanitizeCode "eval(x)".toList "python").isValid = false ∧
      (sanitizeCode "eval(x)".toList "python").errors ≠ [] :=
  sanitize_unsafe_invalid _ _ (by decide)
